import Mathlib

/-!
Formal model of the favicon resolution engine of the theca repository
(`server/internal/utils/parsers/favicon.go`) and of the bookmark HTML
parser's batch favicon fetching (`parsers.fetchFaviconsParallel`),
together with theorems checking the specification's claims.

Pure Go functions are translated to Lean functions.  Effectful calls
(HTTP, cache repository) are modelled by an explicit `World` of oracle
functions, and each run returns the list of performed effects (`Ev`)
alongside its result.  Go strings are Lean `String`s; Go `int` is `Int`;
byte slices are `List Nat` (each entry `< 256` in intended use).
-/

/-- Character-list test: does the list begin with the given pattern?
Used to model Go `strings.HasPrefix` kernel-reducibly. -/
def charsStartWith : List Char → List Char → Bool
  | _, [] => true
  | [], _ :: _ => false
  | a :: as, b :: bs => a == b && charsStartWith as bs

/-- Character-list test: does the pattern occur contiguously in the list?
Models Go `strings.Contains`. -/
def charsContain (sub : List Char) : List Char → Bool
  | [] => charsStartWith [] sub
  | a :: as => charsStartWith (a :: as) sub || charsContain sub as

/-- Go `strings.Contains s sub`. -/
def strContains (s sub : String) : Bool :=
  charsContain sub.toList s.toList

/-- Go `strings.HasPrefix s pre`. -/
def strHasPre (s pre : String) : Bool :=
  charsStartWith s.toList pre.toList

/-- Go `s[n:]` on a string (drop the first `n` characters; the Go code only
slices at ASCII offsets, where byte and character counts agree). -/
def strDrop (s : String) (n : Nat) : String :=
  String.mk (s.toList.drop n)

/-- Go `strings.ToLower` (ASCII-relevant part). -/
def strToLower (s : String) : String :=
  String.mk (s.toList.map Char.toLower)

/-- Go `strings.TrimSpace`. -/
def strTrim (s : String) : String :=
  String.mk (((s.toList.dropWhile Char.isWhitespace).reverse.dropWhile
    Char.isWhitespace).reverse)

/-- Result of Go `net/url.Parse`: scheme, host, and the unparsed remainder
(path, query, fragment). -/
structure GoURL where
  scheme : String
  host : String
  rest : String
  deriving DecidableEq

/-- Does the string contain an ASCII control byte?  Go `net/url` rejects
such URLs. -/
def hasCtl (s : String) : Bool :=
  s.toList.any fun c => c.toNat < 32 || c.toNat == 127

/-- Split an http(s) URL remainder into authority (host) and the rest. -/
def mkAuthority (scheme : String) (rest : String) : GoURL :=
  let p := rest.toList.span fun c => !(c == '/' || c == '?' || c == '#')
  ⟨scheme, String.mk p.1, String.mk p.2⟩

/-- Model of Go `net/url.Parse`, restricted to the behaviours the favicon
code relies on: it fails (returns `none`) on ASCII control characters; an
`http://` or `https://` URL is split into scheme, host (authority, up to
the first `/`, `?` or `#`) and remainder; any other string parses with
empty scheme and host (Go treats it as an opaque path).  Port and
percent-encoding validation of the real library are not modelled. -/
def goUrlParse (s : String) : Option GoURL :=
  if hasCtl s then none
  else if strHasPre s "http://" then some (mkAuthority "http" (strDrop s 7))
  else if strHasPre s "https://" then some (mkAuthority "https" (strDrop s 8))
  else some ⟨"", "", s⟩

/-- Model of Go `url.URL.String()` for the URLs produced by `goUrlParse`. -/
def urlToString (u : GoURL) : String :=
  if u.scheme = "" then u.rest else u.scheme ++ "://" ++ u.host ++ u.rest

/-- The scheme-defaulting step shared by `normalizeURL` and
`FetchFaviconBase64` (favicon.go lines 25-27 and 72-74): prepend
`https://` when the string has neither an `http://` nor an `https://`
prefix. -/
def withScheme (s : String) : String :=
  if !strHasPre s "http://" && !strHasPre s "https://" then "https://" ++ s
  else s

/-- favicon.go `normalizeURL`: normalizes the URL to be used as a cache
key. -/
def normalizeURL (resourceURL : String) : String :=
  let r := withScheme resourceURL
  match goUrlParse r with
  | none => r
  | some u => u.scheme ++ "://" ++ u.host

/-- favicon.go `knownServices` map (association list; lookup is by exact
key, so entry order is irrelevant). -/
def knownServices : List (String × String) :=
  [("gmail.com", "https://ssl.gstatic.com/ui/v1/icons/mail/rfr/gmail.ico"),
   ("mail.google.com", "https://ssl.gstatic.com/ui/v1/icons/mail/rfr/gmail.ico"),
   ("google.com", "https://www.google.com/favicon.ico"),
   ("youtube.com", "https://www.youtube.com/favicon.ico"),
   ("github.com", "https://github.com/favicon.ico"),
   ("stackoverflow.com", "https://cdn.sstatic.net/Sites/stackoverflow/Img/favicon.ico"),
   ("twitter.com", "https://abs.twimg.com/favicons/twitter.ico"),
   ("facebook.com", "https://static.xx.fbcdn.net/rsrc.php/yV/r/hzMapiNYYpW.ico"),
   ("linkedin.com", "https://static.licdn.com/sc/h/1bt1uwq5akv756knzdj4l6cdc")]

/-- Case-fold a host and strip a leading `www.` (favicon.go lines 386-389). -/
def bareDomain (host : String) : String :=
  let domain := strToLower host
  if strHasPre domain "www." then strDrop domain 4 else domain

/-- favicon.go `getKnownServiceFavicon`: returns the direct favicon URL for
known services, `""` otherwise. -/
def getKnownServiceFavicon (resourceURL : String) : String :=
  match goUrlParse resourceURL with
  | none => ""
  | some u =>
    match knownServices.lookup (bareDomain u.host) with
    | some faviconURL => faviconURL
    | none => ""

/-- The standard base64 alphabet (RFC 4648), as used by Go
`encoding/base64.StdEncoding`. -/
def base64Alphabet : List Char :=
  "ABCDEFGHIJKLMNOPQRSTUVWXYZabcdefghijklmnopqrstuvwxyz0123456789+/".toList

/-- Character at a 6-bit index of the standard base64 alphabet. -/
def b64Index (n : Nat) : Char :=
  base64Alphabet.getD n 'A'

/-- Go `base64.StdEncoding.EncodeToString` over a byte list. -/
def base64Encode : List Nat → String
  | [] => ""
  | [a] =>
    let a := a % 256
    String.mk [b64Index (a / 4), b64Index (a % 4 * 16)] ++ "=="
  | [a, b] =>
    let a := a % 256
    let b := b % 256
    String.mk [b64Index (a / 4), b64Index (a % 4 * 16 + b / 16),
      b64Index (b % 16 * 4)] ++ "="
  | a :: b :: c :: rest =>
    let a' := a % 256
    let b' := b % 256
    let c' := c % 256
    String.mk [b64Index (a' / 4), b64Index (a' % 4 * 16 + b' / 16),
      b64Index (b' % 16 * 4 + c' / 64), b64Index (c' % 64)] ++
      base64Encode rest

/-- An HTTP response as seen by `downloadAndEncodeToBase64`: its client
does not follow redirects (`CheckRedirect` returns `ErrUseLastResponse`),
so this is the immediate response.  `contentType` is the `Content-Type`
header, `""` when absent (Go `Header.Get` yields `""` then). -/
structure HttpResponse where
  status : Nat
  contentType : String
  body : List Nat
  deriving DecidableEq

/-- favicon.go `downloadAndEncodeToBase64`, as a function of the HTTP
response for the image URL (`none` models a transport error). -/
def downloadAndEncodeToBase64 (resp : Option HttpResponse) : Option String :=
  match resp with
  | none => none
  | some r =>
    if r.status ≠ 200 then none
    else if r.body.length = 0 then none
    else
      let contentType := if r.contentType = "" then "image/x-icon" else r.contentType
      some ("data:" ++ contentType ++ ";base64," ++ base64Encode r.body)

/-- An icon candidate (favicon.go `IconCandidate`): URL and priority,
lower priority number = more preferred. -/
structure IconCandidate where
  url : String
  priority : Int
  deriving DecidableEq

/-- Default candidate used with positional `getD` access. -/
def dcand : IconCandidate := ⟨"", 0⟩

/-- A node of the parsed HTML document (Go `x/net/html.Node`): an element
with tag, attributes and children, or any other node kind (text, comment,
document, doctype), which the favicon traversal only recurses into. -/
inductive HtmlNode where
  | element (tag : String) (attrs : List (String × String)) (children : List HtmlNode)
  | other (children : List HtmlNode)

/-- favicon.go `relPriorities` map: fixed priorities for known `rel`
values (lookup by exact key). -/
def relPriorities (rel : String) : Option Int :=
  if rel = "icon" then some 1
  else if rel = "shortcut icon" then some 2
  else if rel = "apple-touch-icon" then some 3
  else if rel = "apple-touch-icon-precomposed" then some 4
  else if rel = "fluid-icon" then some 5
  else if rel = "mask-icon" then some 6
  else if rel = "alternate icon" then some 7
  else none

/-- The `rel`/`href`/`sizes` extraction loop over a `<link>` element's
attributes (favicon.go lines 291-301); a later attribute with the same
key overwrites an earlier one, as in the Go loop. -/
def linkAttrs (attrs : List (String × String)) : String × String × String :=
  attrs.foldl
    (fun acc kv =>
      if kv.1 = "rel" then (strToLower (strTrim kv.2), acc.2.1, acc.2.2)
      else if kv.1 = "href" then (acc.1, strTrim kv.2, acc.2.2)
      else if kv.1 = "sizes" then (acc.1, acc.2.1, strTrim kv.2)
      else acc)
    ("", "", "")

/-- The `sizes` test of favicon.go line 310. -/
def sizesBoost (sizes : String) : Bool :=
  !(sizes = "") &&
    (strContains sizes "32x32" || strContains sizes "64x64" ||
      strContains sizes "128x128")

/-- Candidate production for one `<link>` element (favicon.go lines
291-319).  `resolve` abstracts `url.Parse href` followed by
`baseURL.ResolveReference`: `none` models a parse error (candidate
skipped), `some a` the resolved absolute URL. -/
def linkCandidates (resolve : String → Option String) (attrs : List (String × String)) :
    List IconCandidate :=
  let t := linkAttrs attrs
  match relPriorities t.1 with
  | none => []
  | some priority =>
    if t.2.1 = "" then []
    else
      match resolve t.2.1 with
      | none => []
      | some absoluteURL =>
        let priority := if sizesBoost t.2.2 then priority - 1 else priority
        [⟨absoluteURL, priority⟩]

mutual

/-- The recursive `traverse` of favicon.go `findIconCandidates`:
pre-order collection of `<link>` candidates. -/
def extractFromNode (resolve : String → Option String) : HtmlNode → List IconCandidate
  | .element tag attrs children =>
    (if tag = "link" then linkCandidates resolve attrs else []) ++
      extractFromNodes resolve children
  | .other children => extractFromNodes resolve children

/-- Traversal of a node's children, first-to-last. -/
def extractFromNodes (resolve : String → Option String) : List HtmlNode → List IconCandidate
  | [] => []
  | n :: ns => extractFromNode resolve n ++ extractFromNodes resolve ns

end

/-- One comparison-and-swap of the sort loop (favicon.go lines 332-334):
when the element at `i` has strictly greater priority than the element at
`j`, the two are exchanged. -/
def passStep (l : List IconCandidate) (i j : Nat) : List IconCandidate :=
  if (l.getD i dcand).priority > (l.getD j dcand).priority then
    (l.set i (l.getD j dcand)).set j (l.getD i dcand)
  else l

/-- The inner sort loop body, iterated a fixed number of times: running
`innerGo i f j l` performs the comparisons at positions `(i, j)`,
`(i, j+1)`, …, `(i, j+f-1)`. -/
def innerGo (i : Nat) : Nat → Nat → List IconCandidate → List IconCandidate
  | 0, _, l => l
  | f + 1, j, l => innerGo i f (j + 1) (passStep l i j)

/-- The inner sort loop (favicon.go line 331): `j` runs from its start
value while `j < n`, i.e. exactly `n - j` iterations. -/
def innerPass (n i : Nat) (j : Nat) (l : List IconCandidate) : List IconCandidate :=
  innerGo i (n - j) j l

/-- The outer sort loop body, iterated a fixed number of times. -/
def outerGo (n : Nat) : Nat → Nat → List IconCandidate → List IconCandidate
  | 0, _, l => l
  | f + 1, i, l => outerGo n f (i + 1) (innerPass n i (i + 1) l)

/-- The outer sort loop (favicon.go line 330): `i` runs from its start
value while `i < n - 1` (Go `for i := range len(candidates)-1`), i.e.
exactly `(n - 1) - i` iterations, each running the inner loop from
`i + 1`. -/
def outerLoop (n : Nat) (i : Nat) (l : List IconCandidate) : List IconCandidate :=
  outerGo n (n - 1 - i) i l

/-- The in-place exchange sort of favicon.go lines 330-336. -/
def sortCandidates (l : List IconCandidate) : List IconCandidate :=
  outerLoop l.length 0 l

/-- favicon.go `findIconCandidates`: pre-order candidate extraction
followed by the exchange sort. -/
def findIconCandidates (resolve : String → Option String) (doc : HtmlNode) :
    List IconCandidate :=
  sortCandidates (extractFromNode resolve doc)

/-- Effects performed while resolving a favicon.  `htmlState` and
`regexState` mark entry into the HTML-candidate and regex-fallback
cascade states (favicon.go lines 154-169 and 171-181). -/
inductive Ev where
  | cacheGet (origin : String)
  | download (url : String)
  | fetchPage (url : String)
  | probe (url : String)
  | store (origin payload : String)
  | htmlState
  | regexState
  deriving DecidableEq

/-- The final response of the page GET issued by `FetchFaviconBase64`
(its client follows up to 10 redirects, stopping early on auth-looking
targets): final status, the `Location` header (`""` when absent), the
final post-redirect request URL, and the body as a string. -/
structure PageResponse where
  status : Nat
  location : String
  finalURL : String
  body : String
  deriving DecidableEq

/-- The effectful environment of one resolution.  `cacheGet` models
`FaviconCacheRepository.GetFaviconBase64` (`none` = error); `download`
gives the result of `downloadAndEncodeToBase64` per image URL; `fetchPage`
the final response of the page GET (`none` = transport error);
`probeOk` whether a HEAD of the URL answered 200; `pageCandidates body
finalURL` abstracts `html.Parse` + `findIconCandidates`, yielding the
sorted candidate URLs of the fetched page; `pageRegexIcon body finalURL`
abstracts `findIconWithRegex` (`""` = no match). -/
structure World where
  cacheGet : String → Option String
  download : String → Option String
  fetchPage : String → Option PageResponse
  probeOk : String → Bool
  pageCandidates : String → String → List String
  pageRegexIcon : String → String → String

/-- One download-and-store attempt: the pattern
`downloadAndEncodeToBase64(u)` followed by `StoreFaviconBase64` on
success, shared by every cascade state (e.g. favicon.go lines 78-84). -/
def attemptDownload (w : World) (normalizedURL url : String) :
    Option String × List Ev :=
  match w.download url with
  | some v =>
    if v = "" then (none, [Ev.download url])
    else (some v, [Ev.download url, Ev.store normalizedURL v])
  | none => (none, [Ev.download url])

/-- favicon.go `standardPaths` (lines 234-248). -/
def standardPaths : List String :=
  ["/favicon.ico",
   "/apple-touch-icon.png",
   "/apple-touch-icon-120x120.png",
   "/apple-touch-icon-152x152.png",
   "/apple-touch-icon-180x180.png",
   "/apple-touch-icon-precomposed.png",
   "/apple-icon.png",
   "/android-chrome-192x192.png",
   "/icon-192x192.png",
   "/icon.png",
   "/favicon.png",
   "/favicon-32x32.png",
   "/favicon-16x16.png"]

/-- The HEAD-probe loop of `checkStandardFaviconLocations`: first path
answering 200 wins and ends the loop. -/
def probeLoop (w : World) (base : GoURL) : List String → Option String × List Ev
  | [] => (none, [])
  | p :: rest =>
    let iconURL := base.scheme ++ "://" ++ base.host ++ p
    if w.probeOk iconURL then (some iconURL, [Ev.probe iconURL])
    else
      let r := probeLoop w base rest
      (r.1, Ev.probe iconURL :: r.2)

/-- favicon.go `checkStandardFaviconLocations`. -/
def checkStandardFaviconLocations (w : World) (base : GoURL) :
    Option String × List Ev :=
  probeLoop w base standardPaths

/-- The candidate loop of favicon.go lines 161-169: download each
candidate URL in order, first success wins. -/
def tryCandidates (w : World) (normalizedURL : String) :
    List String → Option String × List Ev
  | [] => (none, [])
  | u :: rest =>
    match (attemptDownload w normalizedURL u).1 with
    | some v => (some v, (attemptDownload w normalizedURL u).2)
    | none =>
      ((tryCandidates w normalizedURL rest).1,
        (attemptDownload w normalizedURL u).2 ++ (tryCandidates w normalizedURL rest).2)

/-- The known-service attempt pattern shared by `FetchFaviconBase64`
(lines 77-85) and `tryFaviconFromBaseDomain` (lines 414-422): when
`getKnownServiceFavicon` yields a URL, download it. -/
def knownAttempt (w : World) (normalizedURL url : String) : Option String × List Ev :=
  if getKnownServiceFavicon url = "" then (none, [])
  else attemptDownload w normalizedURL (getKnownServiceFavicon url)

/-- The standard-location attempt: download the first probed location,
when one exists. -/
def stdAttempt (w : World) (normalizedURL : String) (baseURL : GoURL) :
    Option String × List Ev :=
  match (checkStandardFaviconLocations w baseURL).1 with
  | some stdURL => attemptDownload w normalizedURL stdURL
  | none => (none, [])

/-- favicon.go `tryFaviconFromBaseDomain`: known-service lookup, then the
standard-location probe; no further fallback. -/
def tryFaviconFromBaseDomain (w : World) (normalizedURL : String) (baseURL : GoURL) :
    Option String × List Ev :=
  match (knownAttempt w normalizedURL (urlToString baseURL)).1 with
  | some v => (some v, (knownAttempt w normalizedURL (urlToString baseURL)).2)
  | none =>
    ((stdAttempt w normalizedURL baseURL).1,
      (knownAttempt w normalizedURL (urlToString baseURL)).2 ++
        (checkStandardFaviconLocations w baseURL).2 ++
        (stdAttempt w normalizedURL baseURL).2)

/-- The auth-redirect Location test of favicon.go line 113. -/
def isAuthLocation (loc : String) : Bool :=
  strContains loc "login" || strContains loc "signin" || strContains loc "auth"

/-- The regex-fallback attempt (favicon.go lines 171-181): when
`findIconWithRegex` yields a URL, download it. -/
def regexAttempt (w : World) (normalizedURL : String) (resp : PageResponse) :
    Option String × List Ev :=
  if w.pageRegexIcon resp.body resp.finalURL = "" then (none, [])
  else attemptDownload w normalizedURL (w.pageRegexIcon resp.body resp.finalURL)

/-- The HTML-candidate state followed by the remaining cascade (favicon.go
lines 154-193). -/
def htmlThenRest (w : World) (normalizedURL : String) (resp : PageResponse)
    (baseURL : GoURL) : Option String × List Ev :=
  match (tryCandidates w normalizedURL (w.pageCandidates resp.body resp.finalURL)).1 with
  | some v =>
    (some v, Ev.htmlState ::
      (tryCandidates w normalizedURL (w.pageCandidates resp.body resp.finalURL)).2)
  | none =>
    match (regexAttempt w normalizedURL resp).1 with
    | some v =>
      (some v, Ev.htmlState ::
        (tryCandidates w normalizedURL (w.pageCandidates resp.body resp.finalURL)).2 ++
        Ev.regexState :: (regexAttempt w normalizedURL resp).2)
    | none =>
      ((attemptDownload w normalizedURL
          (baseURL.scheme ++ "://" ++ baseURL.host ++ "/favicon.ico")).1,
        Ev.htmlState ::
          (tryCandidates w normalizedURL (w.pageCandidates resp.body resp.finalURL)).2 ++
          Ev.regexState :: (regexAttempt w normalizedURL resp).2 ++
          (attemptDownload w normalizedURL
            (baseURL.scheme ++ "://" ++ baseURL.host ++ "/favicon.ico")).2)

/-- The post-fetch cascade on a successfully (status 200) fetched page
(favicon.go lines 131-193): standard locations, then the HTML, regex and
default-icon states. -/
def fetchPageSuccess (w : World) (normalizedURL : String) (resp : PageResponse)
    (baseURL : GoURL) : Option String × List Ev :=
  match (stdAttempt w normalizedURL baseURL).1 with
  | some v =>
    (some v, (checkStandardFaviconLocations w baseURL).2 ++
      (stdAttempt w normalizedURL baseURL).2)
  | none =>
    ((htmlThenRest w normalizedURL resp baseURL).1,
      (checkStandardFaviconLocations w baseURL).2 ++
        (stdAttempt w normalizedURL baseURL).2 ++
        (htmlThenRest w normalizedURL resp baseURL).2)

/-- The non-200 handling of favicon.go lines 122-135: a non-200 final
status falls back to the base domain (parsed from the request URL); a 200
parses the final post-redirect URL and enters the page cascade. -/
def fetchAfterAuthCheck (w : World) (normalizedURL resourceURL : String)
    (resp : PageResponse) : Option String × List Ev :=
  if resp.status ≠ 200 then
    match goUrlParse resourceURL with
    | some baseURL => tryFaviconFromBaseDomain w normalizedURL baseURL
    | none => (none, [])
  else
    match goUrlParse resp.finalURL with
    | none => (none, [])
    | some baseURL => fetchPageSuccess w normalizedURL resp baseURL

/-- The response dispatch of favicon.go lines 110-129: a 3xx final
response whose Location looks like an auth page goes straight to the base
domain; otherwise the non-200 check decides. -/
def fetchWithResp (w : World) (normalizedURL resourceURL : String)
    (resp : PageResponse) : Option String × List Ev :=
  if 300 ≤ resp.status && resp.status < 400 && isAuthLocation resp.location then
    match goUrlParse resourceURL with
    | some baseURL => tryFaviconFromBaseDomain w normalizedURL baseURL
    | none => fetchAfterAuthCheck w normalizedURL resourceURL resp
  else fetchAfterAuthCheck w normalizedURL resourceURL resp

/-- The cache-miss body of `FetchFaviconBase64` (favicon.go lines 72-193):
known-service shortcut, then the page fetch and its cascade.
`resourceURL` already carries its scheme. -/
def fetchCore (w : World) (normalizedURL resourceURL : String) :
    Option String × List Ev :=
  match (knownAttempt w normalizedURL resourceURL).1 with
  | some v => (some v, (knownAttempt w normalizedURL resourceURL).2)
  | none =>
    match w.fetchPage resourceURL with
    | none =>
      (none, (knownAttempt w normalizedURL resourceURL).2 ++ [Ev.fetchPage resourceURL])
    | some resp =>
      ((fetchWithResp w normalizedURL resourceURL resp).1,
        (knownAttempt w normalizedURL resourceURL).2 ++
          Ev.fetchPage resourceURL :: (fetchWithResp w normalizedURL resourceURL resp).2)

/-- The cache-lookup step of favicon.go lines 66-70: a hit is an
error-free, non-empty cached value. -/
def cacheHitValue (w : World) (origin : String) : Option String :=
  match w.cacheGet origin with
  | some cv => if cv = "" then none else some cv
  | none => none

/-- favicon.go `FetchFaviconBase64`: cache lookup under the normalized
origin, then the resolution cascade.  The cache repository is modelled as
present (the `cacheRepo != nil` guards always taken). -/
def FetchFaviconBase64 (w : World) (resourceURL : String) :
    Option String × List Ev :=
  match cacheHitValue w (normalizeURL resourceURL) with
  | some cv => (some cv, [Ev.cacheGet (normalizeURL resourceURL)])
  | none =>
    ((fetchCore w (normalizeURL resourceURL) (withScheme resourceURL)).1,
      Ev.cacheGet (normalizeURL resourceURL) ::
        (fetchCore w (normalizeURL resourceURL) (withScheme resourceURL)).2)

/-- favicon.go `FetchFavicon`: calls `FetchFaviconBase64`, forwards its
error, and returns `""` as the payload in every case. -/
def FetchFavicon (w : World) (resourceURL : String) : Option String × List Ev :=
  let r := FetchFaviconBase64 w resourceURL
  match r.1 with
  | none => (none, r.2)
  | some _ => (some "", r.2)

/-- The cache writes recorded in a trace, in order. -/
def writes (t : List Ev) : List (String × String) :=
  t.filterMap fun e =>
    match e with
    | .store o p => some (o, p)
    | _ => none

/-- Is the event a download attempt? -/
def isDownloadEv : Ev → Bool
  | .download _ => true
  | _ => false

/-- Is the event a page fetch? -/
def isFetchPageEv : Ev → Bool
  | .fetchPage _ => true
  | _ => false

/-- Go `model.Bookmark` (declared in the `package model` part of
`src/server/internal/app/app.go`): CreatedAt, UpdatedAt, Title, URL,
Favicon, ID, UserID, ShowText.  `time.Time` instants are modelled as
`Int` (an opaque stand-in — the favicon code never inspects them), Go
`uint` as `Nat`. -/
structure Bookmark where
  CreatedAt : Int
  UpdatedAt : Int
  Title : String
  URL : String
  Favicon : String
  ID : Nat
  UserID : Nat
  ShowText : Bool
  deriving DecidableEq

/-- Default (zero-value) bookmark used with positional `getD` access. -/
def dbook : Bookmark := ⟨0, 0, "", "", "", 0, 0, false⟩

/-- bookmark parser `getFavicon`: empty URL short-circuits to `""`; a
resolution error becomes `""`; otherwise the resolved data URI. -/
def getFavicon (w : World) (bookmarkURL : String) : String :=
  if bookmarkURL = "" then ""
  else
    match (FetchFaviconBase64 w bookmarkURL).1 with
    | none => ""
    | some favicon => favicon

/-- bookmark parser `fetchFaviconsParallel`, modelled by its state after
the `WaitGroup` join: records with an empty URL are skipped (left
unchanged), every other record's favicon field is set from resolving its
own URL.  The spawned tasks write to pairwise disjoint slots, so the
joined result is this per-record map; the concurrency-admission
discipline itself is modelled by `SemStep` below. -/
def fetchFaviconsParallel (w : World) (bookmarks : List Bookmark) : List Bookmark :=
  bookmarks.map fun b =>
    if b.URL = "" then b else { b with Favicon := getFavicon w b.URL }

/-- Capacity of the batch semaphore channel
(`make(chan struct{}, 10)`). -/
def semCapacity : Nat := 10

/-- Scheduling state of one batch call: indices of spawned tasks not yet
holding a semaphore slot, tasks currently holding one (in flight), and
finished tasks. -/
structure SemState where
  waiting : List Nat
  running : List Nat
  finished : List Nat
  deriving DecidableEq

/-- The indices for which `fetchFaviconsParallel` spawns a task: exactly
the positions whose bookmark has a non-empty URL. -/
def spawnedTasks (bookmarks : List Bookmark) : List Nat :=
  (List.range bookmarks.length).filter fun i => !((bookmarks.getD i dbook).URL = "")

/-- Initial scheduling state of a batch call: every spawned task waits,
none runs. -/
def initBatch (bookmarks : List Bookmark) : SemState :=
  ⟨spawnedTasks bookmarks, [], []⟩

/-- Interleaving semantics of the semaphore channel: a waiting task may
start only while fewer than `semCapacity` tasks hold a slot
(`semaphore <- struct{}{}` blocks otherwise); a running task may finish,
releasing its slot (`<-semaphore`). -/
inductive SemStep : SemState → SemState → Prop
  | start (s : SemState) (i : Nat) :
      i ∈ s.waiting → s.running.length < semCapacity →
      SemStep s ⟨s.waiting.erase i, i :: s.running, s.finished⟩
  | finish (s : SemState) (i : Nat) :
      i ∈ s.running →
      SemStep s ⟨s.waiting, s.running.erase i, i :: s.finished⟩

/-- States a batch call can reach from its initial state. -/
def BatchReachable (bookmarks : List Bookmark) (s : SemState) : Prop :=
  Relation.ReflTransGen SemStep (initBatch bookmarks) s

/-- The spec's stability property for the candidate sort: any two
equal-priority candidates of the extraction (document) order occur in the
output in the same relative order. -/
def StableOrder (inp out : List IconCandidate) : Prop :=
  ∀ i, i < inp.length → ∀ j, j < inp.length → i < j →
    (inp.getD i dcand).priority = (inp.getD j dcand).priority →
    ∃ i2, i2 < out.length ∧ ∃ j2, j2 < out.length ∧ i2 < j2 ∧
      out.getD i2 dcand = inp.getD i dcand ∧ out.getD j2 dcand = inp.getD j dcand

/-- Identity resolution oracle for concrete documents (every `href` is
already absolute). -/
def resolveId : String → Option String := fun h => some h

/-- A `<link rel=… href=…>` element. -/
def mkLink (rel href : String) : HtmlNode :=
  .element "link" [("rel", rel), ("href", href)] []

/-- Document with two equal-priority icons before a better one: exposes
the instability of the exchange sort. -/
def docStable : HtmlNode :=
  .element "html" []
    [.element "head" []
      [mkLink "shortcut icon" "a", mkLink "shortcut icon" "b", mkLink "icon" "c"]]

/-- Document with rels `alternate icon`, `icon`, `apple-touch-icon` in
source order. -/
def docOrder : HtmlNode :=
  .element "html" []
    [.element "head" []
      [mkLink "alternate icon" "u1", mkLink "icon" "u2", mkLink "apple-touch-icon" "u3"]]

/-- World in which every effect fails: empty cache, every download and
page fetch fails, every probe misses. -/
def emptyWorld : World :=
  ⟨fun _ => none, fun _ => none, fun _ => none, fun _ => false,
   fun _ _ => [], fun _ _ => ""⟩

/-- World whose page fetch always ends in a 404 and in which every
download and probe fails. -/
def w404 : World :=
  { emptyWorld with fetchPage := fun _ => some ⟨404, "", "", ""⟩ }

/-- World in which exactly the constant GitHub icon URL downloads. -/
def wGithub : World :=
  { emptyWorld with
      download := fun u =>
        if u = "https://github.com/favicon.ico" then
          some "data:image/x-icon;base64,AAAA" else none }

/-- World whose cache already holds an icon for `https://example.com`. -/
def wCacheHit : World :=
  { emptyWorld with
      cacheGet := fun o =>
        if o = "https://example.com" then some "data:image/png;base64,iVBORw0KGgo=" else none }

/-- Concrete batch: a resolvable URL, an empty URL, a failing URL. -/
def bs0 : List Bookmark :=
  [⟨0, 0, "a", "github.com", "", 1, 1, false⟩,
   ⟨0, 0, "b", "", "", 2, 1, false⟩,
   ⟨0, 0, "c", "nosuch.example", "", 3, 1, true⟩]

/-- A `<link>` element carrying `rel`, `href` and `sizes` attributes. -/
def mkLinkS (rel href sizes : String) : HtmlNode :=
  .element "link" [("rel", rel), ("href", href), ("sizes", sizes)] []

/-- Candidates in ascending priority order (lower number first). -/
def SortedLE (l : List IconCandidate) : Prop :=
  List.Pairwise (fun a b => a.priority ≤ b.priority) l

/-- Write discipline of a cascade stage: a failure writes nothing, a
success writes exactly its returned payload under the given origin. -/
@[reducible] def WS (n : String) (r : Option String × List Ev) : Prop :=
  (r.1 = none → writes r.2 = []) ∧ ∀ v, r.1 = some v → writes r.2 = [(n, v)]

/-- Events that only the base-domain path emits: downloads, probes and
cache stores (no page fetch, no HTML or regex state). -/
def benignEv : Ev → Bool
  | .download _ => true
  | .probe _ => true
  | .store _ _ => true
  | _ => false

/-- Positional access after `List.map`. -/
theorem getD_map_of_lt {α β : Type _} (f : α → β) :
    ∀ (l : List α) (i : Nat) (d1 : α) (d2 : β), i < l.length →
      (l.map f).getD i d2 = f (l.getD i d1)
  | [], i, _, _, h => absurd h (by simp)
  | a :: t, 0, _, _, _ => rfl
  | a :: t, n + 1, d1, d2, h =>
    getD_map_of_lt f t n d1 d2 (by simpa using h)

/-- C3: the Asset Downloader succeeds exactly on a status-200, non-empty
response (redirects are not followed, so a redirect status is a failure),
and on success returns `data:` + content type (defaulting to
`image/x-icon`) + `;base64,` + the base64 payload. -/
theorem downloadAndEncode_success_charac (resp : Option HttpResponse) :
    ((downloadAndEncodeToBase64 resp).isSome ↔
      ∃ r, resp = some r ∧ r.status = 200 ∧ r.body ≠ []) ∧
    (∀ r, resp = some r → r.status = 200 → r.body ≠ [] →
      downloadAndEncodeToBase64 resp =
        some ("data:" ++ (if r.contentType = "" then "image/x-icon" else r.contentType) ++
          ";base64," ++ base64Encode r.body)) := by
  constructor
  · cases resp with
    | none => simp [downloadAndEncodeToBase64]
    | some r =>
      simp only [downloadAndEncodeToBase64, Option.some.injEq]
      constructor
      · intro h
        refine ⟨r, rfl, ?_, ?_⟩ <;> by_contra hc <;>
          simp [hc, List.length_eq_zero] at h
      · rintro ⟨r', hr', h200, hne⟩
        cases hr'
        simp [h200, List.length_eq_zero, hne]
  · intro r hr h200 hne
    cases hr
    simp [downloadAndEncodeToBase64, h200, List.length_eq_zero, hne]

/-- Witness for C3 at a concrete response. -/
theorem downloadAndEncode_success_charac_witness :
    ((⟨200, "image/png", [1, 2, 3]⟩ : HttpResponse).status = 200 ∧
      (⟨200, "image/png", [1, 2, 3]⟩ : HttpResponse).body ≠ []) ∧
    downloadAndEncodeToBase64 (some ⟨200, "image/png", [1, 2, 3]⟩) =
      some "data:image/png;base64,AQID" := by
  refine ⟨⟨rfl, by decide⟩, ?_⟩
  have h := (downloadAndEncode_success_charac (some ⟨200, "image/png", [1, 2, 3]⟩)).2
    ⟨200, "image/png", [1, 2, 3]⟩ rfl rfl (by decide)
  rw [h]
  decide

/-- C5 (amended): the URL Normalizer prepends `https://` when the string
has no `http(s)://` prefix and returns scheme + `://` + host of the
parsed result; when parsing fails it returns the scheme-prefixed string
(not necessarily the original input) and never throws. -/
theorem normalizeURL_behavior (s : String) :
    (strHasPre s "http://" = false → strHasPre s "https://" = false →
      withScheme s = "https://" ++ s) ∧
    (goUrlParse (withScheme s) = none → normalizeURL s = withScheme s) ∧
    (∀ u, goUrlParse (withScheme s) = some u →
      normalizeURL s = u.scheme ++ "://" ++ u.host) ∧
    normalizeURL "example.com/page" = "https://example.com" := by
  refine ⟨?_, ?_, ?_, by decide⟩
  · intro h1 h2
    simp [withScheme, h1, h2]
  · intro h
    simp [normalizeURL, h]
  · intro u h
    simp [normalizeURL, h]

/-- Witness for C5 on `example.com/page`. -/
theorem normalizeURL_behavior_witness :
    goUrlParse (withScheme "example.com/page") =
      some ⟨"https", "example.com", "/page"⟩ ∧
    normalizeURL "example.com/page" = "https" ++ "://" ++ "example.com" :=
  ⟨by decide,
    (normalizeURL_behavior "example.com/page").2.2.1
      ⟨"https", "example.com", "/page"⟩ (by decide)⟩

/-- Counterexample for C5 as stated: on a parse failure caused by a
control character, the result is the `https://`-prefixed string, not the
original input unchanged. -/
theorem normalizeURL_not_original_cx :
    normalizeURL "\x01" ≠ "\x01" ∧ normalizeURL "\x01" = "https://\x01" :=
  ⟨by decide, by decide⟩

/-- C10: the exported wrapper `FetchFavicon` always returns `""` as its
payload — its success value is the underlying resolution's success value
with the payload erased, so only the error distinguishes outcomes and no
caller can obtain the resolved icon. -/
theorem fetchFavicon_empty_payload (w : World) (url : String) :
    (FetchFavicon w url).1 = ((FetchFaviconBase64 w url).1).map (fun _ => "") := by
  simp only [FetchFavicon]
  cases h : (FetchFaviconBase64 w url).1 <;> simp [h]

/-- C9: one task is spawned per non-empty URL (exactly the indices whose
bookmark has a non-empty URL, each once), and in every state a batch call
can reach, at most `semCapacity` (= 10) tasks hold a semaphore slot, i.e.
at most 10 resolutions are in flight; a waiting task can only start while
a slot is free. -/
theorem semaphore_bound (bookmarks : List Bookmark) :
    ((spawnedTasks bookmarks).Nodup ∧
      ∀ i, i ∈ spawnedTasks bookmarks ↔
        (i < bookmarks.length ∧ (bookmarks.getD i dbook).URL ≠ "")) ∧
    ∀ s, BatchReachable bookmarks s → s.running.length ≤ semCapacity := by
  refine ⟨⟨(List.nodup_range _).filter _, ?_⟩, ?_⟩
  · intro i
    simp [spawnedTasks, List.mem_filter, List.mem_range]
  · intro s h
    induction h with
    | refl => simp [initBatch]
    | tail _ step ih =>
      cases step with
      | start i hw hlt => simpa using hlt
      | finish i hr =>
        exact le_trans (List.Sublist.length_le (List.erase_sublist _ _)) ih

/-- Witness for C9 at a concrete batch and its initial state. -/
theorem semaphore_bound_witness :
    BatchReachable bs0 (initBatch bs0) ∧
    (initBatch bs0).running.length ≤ semCapacity :=
  ⟨Relation.ReflTransGen.refl,
    (semaphore_bound bs0).2 (initBatch bs0) Relation.ReflTransGen.refl⟩

/-- C8: in a batch call, a record with an empty URL is skipped (returned
unchanged, icon field untouched); every other record's icon field is set
from resolving its own URL only, and a record whose resolution fails ends
with an empty icon while no other record is affected (each output record
is a function of its own input record).  The batch function denotes the
state after the `WaitGroup` join, i.e. after every spawned task has
completed. -/
theorem fetchFaviconsParallel_per_record (w : World) (bookmarks : List Bookmark)
    (i : Nat) (hi : i < bookmarks.length) :
    (fetchFaviconsParallel w bookmarks).length = bookmarks.length ∧
    ((bookmarks.getD i dbook).URL = "" →
      (fetchFaviconsParallel w bookmarks).getD i dbook = bookmarks.getD i dbook) ∧
    ((bookmarks.getD i dbook).URL ≠ "" →
      (fetchFaviconsParallel w bookmarks).getD i dbook =
        { bookmarks.getD i dbook with
            Favicon := getFavicon w (bookmarks.getD i dbook).URL }) ∧
    ((bookmarks.getD i dbook).URL ≠ "" →
      (FetchFaviconBase64 w (bookmarks.getD i dbook).URL).1 = none →
      ((fetchFaviconsParallel w bookmarks).getD i dbook).Favicon = "") := by
  have hmap : (fetchFaviconsParallel w bookmarks).getD i dbook =
      if (bookmarks.getD i dbook).URL = "" then bookmarks.getD i dbook
      else { bookmarks.getD i dbook with
              Favicon := getFavicon w (bookmarks.getD i dbook).URL } :=
    getD_map_of_lt _ bookmarks i dbook dbook hi
  refine ⟨by simp [fetchFaviconsParallel], ?_, ?_, ?_⟩
  · intro h
    rw [hmap, if_pos h]
  · intro h
    rw [hmap, if_neg h]
  · intro h hfail
    rw [hmap, if_neg h]
    show getFavicon w (bookmarks.getD i dbook).URL = ""
    unfold getFavicon
    rw [if_neg h, hfail]

/-- Witness for C8: in `bs0` the failing third record ends with an empty
icon. -/
theorem fetchFaviconsParallel_per_record_witness :
    (2 < bs0.length ∧ (bs0.getD 2 dbook).URL ≠ "" ∧
      (FetchFaviconBase64 wGithub (bs0.getD 2 dbook).URL).1 = none) ∧
    ((fetchFaviconsParallel wGithub bs0).getD 2 dbook).Favicon = "" :=
  ⟨⟨by decide, by decide, by decide⟩,
    (fetchFaviconsParallel_per_record wGithub bs0 2 (by decide)).2.2.2
      (by decide) (by decide)⟩

/-- The writes of a concatenated trace are the concatenated writes. -/
theorem writes_append (a b : List Ev) : writes (a ++ b) = writes a ++ writes b := by
  simp [writes]

/-- A single download attempt obeys the write discipline. -/
theorem attemptDownload_WS (w : World) (n u : String) : WS n (attemptDownload w n u) := by
  unfold WS attemptDownload
  cases h : w.download u with
  | none => simp [writes]
  | some v =>
    by_cases hv : v = "" <;> simp [hv, writes]

/-- The probe loop emits probe events only. -/
theorem probeLoop_events (w : World) (b : GoURL) :
    ∀ ps : List String, ∀ e ∈ (probeLoop w b ps).2, ∃ u, e = Ev.probe u := by
  intro ps
  induction ps with
  | nil => simp [probeLoop]
  | cons p rest ih =>
    intro e he
    simp only [probeLoop] at he
    split at he
    · simp at he
      exact ⟨_, he⟩
    · simp at he
      rcases he with he | he
      · exact ⟨_, he⟩
      · exact ih e he

/-- The probe loop writes nothing to the cache. -/
theorem probeLoop_writes (w : World) (b : GoURL) (ps : List String) :
    writes (probeLoop w b ps).2 = [] := by
  rw [writes, List.filterMap_eq_nil_iff]
  intro e he
  obtain ⟨u, rfl⟩ := probeLoop_events w b ps e he
  rfl

/-- The standard-location probe writes nothing to the cache. -/
theorem checkStd_writes (w : World) (b : GoURL) :
    writes (checkStandardFaviconLocations w b).2 = [] :=
  probeLoop_writes w b standardPaths

/-- The known-service attempt obeys the write discipline. -/
theorem knownAttempt_WS (w : World) (n url : String) : WS n (knownAttempt w n url) := by
  unfold knownAttempt
  split
  · exact ⟨fun _ => rfl, fun v h => by simp at h⟩
  · exact attemptDownload_WS w n _

/-- The standard-location attempt obeys the write discipline. -/
theorem stdAttempt_WS (w : World) (n : String) (b : GoURL) : WS n (stdAttempt w n b) := by
  unfold stdAttempt
  cases (checkStandardFaviconLocations w b).1 with
  | some stdURL => exact attemptDownload_WS w n stdURL
  | none => exact ⟨fun _ => rfl, fun v h => by simp at h⟩

/-- The candidate loop obeys the write discipline. -/
theorem tryCandidates_WS (w : World) (n : String) :
    ∀ l : List String, WS n (tryCandidates w n l) := by
  intro l
  induction l with
  | nil => exact ⟨fun _ => rfl, fun v h => by simp [tryCandidates] at h⟩
  | cons u rest ih =>
    have ha := attemptDownload_WS w n u
    unfold tryCandidates
    split
    next v heq =>
      refine ⟨fun h => by simp at h, fun v' hv' => ?_⟩
      obtain rfl := Option.some.inj hv'
      exact ha.2 _ heq
    next heq =>
      refine ⟨fun h => ?_, fun v' hv' => ?_⟩
      · rw [writes_append, ha.1 heq, ih.1 h]
        rfl
      · rw [writes_append, ha.1 heq, ih.2 v' hv']
        rfl

/-- The base-domain fallback obeys the write discipline. -/
theorem tryBase_WS (w : World) (n : String) (b : GoURL) :
    WS n (tryFaviconFromBaseDomain w n b) := by
  have hk := knownAttempt_WS w n (urlToString b)
  have hs := stdAttempt_WS w n b
  unfold tryFaviconFromBaseDomain
  split
  next v heq =>
    refine ⟨fun h => by simp at h, fun v' hv' => ?_⟩
    obtain rfl := Option.some.inj hv'
    exact hk.2 _ heq
  next heq =>
    refine ⟨fun h => ?_, fun v' hv' => ?_⟩
    · rw [writes_append, writes_append, hk.1 heq, checkStd_writes, hs.1 h]
      rfl
    · rw [writes_append, writes_append, hk.1 heq, checkStd_writes, hs.2 v' hv']
      rfl

/-- The regex-fallback attempt obeys the write discipline. -/
theorem regexAttempt_WS (w : World) (n : String) (resp : PageResponse) :
    WS n (regexAttempt w n resp) := by
  unfold regexAttempt
  split
  · exact ⟨fun _ => rfl, fun v h => by simp at h⟩
  · exact attemptDownload_WS w n _

/-- A non-store head leaves `writes` unchanged. -/
theorem writes_cons_benign (e : Ev) (t : List Ev)
    (h : ∀ o p, e ≠ Ev.store o p) : writes (e :: t) = writes t := by
  cases e <;> simp [writes]
  exact absurd rfl (h _ _)

/-- The HTML, regex and default-icon states obey the write discipline. -/
theorem htmlThenRest_WS (w : World) (n : String) (resp : PageResponse) (b : GoURL) :
    WS n (htmlThenRest w n resp b) := by
  have htc := tryCandidates_WS w n (w.pageCandidates resp.body resp.finalURL)
  have hre := regexAttempt_WS w n resp
  have had := attemptDownload_WS w n (b.scheme ++ "://" ++ b.host ++ "/favicon.ico")
  have hnc : ∀ o p, Ev.htmlState ≠ Ev.store o p := fun o p h => Ev.noConfusion h
  have hnr : ∀ o p, Ev.regexState ≠ Ev.store o p := fun o p h => Ev.noConfusion h
  unfold htmlThenRest
  split
  next v heq =>
    refine ⟨fun h => by simp at h, fun v' hv' => ?_⟩
    obtain rfl := Option.some.inj hv'
    rw [writes_cons_benign _ _ hnc, htc.2 _ heq]
  next heq =>
    split
    next v heq2 =>
      refine ⟨fun h => by simp at h, fun v' hv' => ?_⟩
      obtain rfl := Option.some.inj hv'
      dsimp only
      simp only [writes_append, writes_cons_benign _ _ hnc, writes_cons_benign _ _ hnr]
      rw [htc.1 heq, hre.2 _ heq2]
      rfl
    next heq2 =>
      refine ⟨fun h => ?_, fun v' hv' => ?_⟩
      · dsimp only
        simp only [writes_append, writes_cons_benign _ _ hnc, writes_cons_benign _ _ hnr]
        rw [htc.1 heq, hre.1 heq2, had.1 h]
        rfl
      · dsimp only
        simp only [writes_append, writes_cons_benign _ _ hnc, writes_cons_benign _ _ hnr]
        rw [htc.1 heq, hre.1 heq2, had.2 v' hv']
        rfl

/-- The post-fetch page cascade obeys the write discipline. -/
theorem fetchPageSuccess_WS (w : World) (n : String) (resp : PageResponse) (b : GoURL) :
    WS n (fetchPageSuccess w n resp b) := by
  have hs := stdAttempt_WS w n b
  have hh := htmlThenRest_WS w n resp b
  unfold fetchPageSuccess
  split
  next v heq =>
    refine ⟨fun h => by simp at h, fun v' hv' => ?_⟩
    obtain rfl := Option.some.inj hv'
    rw [writes_append, checkStd_writes, hs.2 _ heq]
    rfl
  next heq =>
    refine ⟨fun h => ?_, fun v' hv' => ?_⟩
    · rw [writes_append, writes_append, checkStd_writes, hs.1 heq, hh.1 h]
      rfl
    · rw [writes_append, writes_append, checkStd_writes, hs.1 heq, hh.2 v' hv']
      rfl

/-- The post-fetch dispatch obeys the write discipline. -/
theorem fetchAfterAuthCheck_WS (w : World) (n r : String) (resp : PageResponse) :
    WS n (fetchAfterAuthCheck w n r resp) := by
  unfold fetchAfterAuthCheck
  split
  · split
    · exact tryBase_WS w n _
    · exact ⟨fun _ => rfl, fun v h => by simp at h⟩
  · split
    · exact ⟨fun _ => rfl, fun v h => by simp at h⟩
    · exact fetchPageSuccess_WS w n resp _

/-- The response dispatch obeys the write discipline. -/
theorem fetchWithResp_WS (w : World) (n r : String) (resp : PageResponse) :
    WS n (fetchWithResp w n r resp) := by
  unfold fetchWithResp
  split
  · split
    · exact tryBase_WS w n _
    · exact fetchAfterAuthCheck_WS w n r resp
  · exact fetchAfterAuthCheck_WS w n r resp

/-- The cache-miss cascade obeys the write discipline. -/
theorem fetchCore_WS (w : World) (n r : String) : WS n (fetchCore w n r) := by
  have hk := knownAttempt_WS w n r
  have hnf : ∀ o p, Ev.fetchPage r ≠ Ev.store o p := fun o p h => Ev.noConfusion h
  unfold fetchCore
  split
  next v heq =>
    refine ⟨fun h => by simp at h, fun v' hv' => ?_⟩
    obtain rfl := Option.some.inj hv'
    exact hk.2 _ heq
  next heq =>
    split
    next =>
      refine ⟨fun _ => ?_, fun v h => by simp at h⟩
      rw [writes_append, hk.1 heq]
      rfl
    next resp2 heq2 =>
      have hw := fetchWithResp_WS w n r resp2
      refine ⟨fun h => ?_, fun v' hv' => ?_⟩
      · dsimp only
        rw [writes_append, hk.1 heq, writes_cons_benign _ _ hnf, hw.1 h]
        rfl
      · dsimp only
        rw [writes_append, hk.1 heq, writes_cons_benign _ _ hnf, hw.2 v' hv']
        rfl

/-- C6 (amended): a cache entry is written only when the resolution
succeeds, always under the normalized origin and with the returned data
URI as value; a failed resolution (and any failed download attempt
mid-cascade) writes nothing; when the cache lookup misses, a successful
resolution performs exactly one write; a resolution served from the
cache performs no write. -/
theorem cacheWrite_only_on_success (w : World) (url : String) :
    ((FetchFaviconBase64 w url).1 = none → writes (FetchFaviconBase64 w url).2 = []) ∧
    (∀ v, (FetchFaviconBase64 w url).1 = some v →
      writes (FetchFaviconBase64 w url).2 = [] ∨
      writes (FetchFaviconBase64 w url).2 = [(normalizeURL url, v)]) ∧
    (cacheHitValue w (normalizeURL url) = none →
      ∀ v, (FetchFaviconBase64 w url).1 = some v →
        writes (FetchFaviconBase64 w url).2 = [(normalizeURL url, v)]) := by
  have hc := fetchCore_WS w (normalizeURL url) (withScheme url)
  have hben : ∀ o p, Ev.cacheGet (normalizeURL url) ≠ Ev.store o p :=
    fun o p hq => Ev.noConfusion hq
  unfold FetchFaviconBase64
  split
  next cv heq =>
    refine ⟨fun h => by simp at h, fun v hv => Or.inl rfl, fun hmiss => ?_⟩
    rw [hmiss] at heq
    cases heq
  next heq =>
    refine ⟨fun h => ?_, fun v hv => Or.inr ?_, fun _ v hv => ?_⟩
    · dsimp only at h ⊢
      rw [writes_cons_benign _ _ hben, hc.1 h]
    · dsimp only at hv ⊢
      rw [writes_cons_benign _ _ hben, hc.2 v hv]
    · dsimp only at hv ⊢
      rw [writes_cons_benign _ _ hben, hc.2 v hv]

/-- Witness for C6: a cache-missing resolution that succeeds via the
known-service shortcut performs exactly one write, of the returned data
URI under the normalized origin. -/
theorem cacheWrite_only_on_success_witness :
    (cacheHitValue wGithub (normalizeURL "github.com") = none ∧
      (FetchFaviconBase64 wGithub "github.com").1 = some "data:image/x-icon;base64,AAAA") ∧
    writes (FetchFaviconBase64 wGithub "github.com").2 =
      [("https://github.com", "data:image/x-icon;base64,AAAA")] := by
  refine ⟨⟨by decide, by decide⟩, ?_⟩
  have h := (cacheWrite_only_on_success wGithub "github.com").2.2 (by decide)
    "data:image/x-icon;base64,AAAA" (by decide)
  rw [h]
  decide

/-- Counterexample for C6 as stated: a resolution served from the cache
succeeds yet performs no cache write, so the write does not happen
"exactly when the resolution succeeds". -/
theorem cacheWrite_cache_hit_cx :
    (FetchFaviconBase64 wCacheHit "example.com").1 =
      some "data:image/png;base64,iVBORw0KGgo=" ∧
    writes (FetchFaviconBase64 wCacheHit "example.com").2 = [] :=
  ⟨by decide, by decide⟩

/-- Download attempts emit benign events only. -/
theorem attemptDownload_benign (w : World) (n u : String) :
    ∀ e ∈ (attemptDownload w n u).2, benignEv e = true := by
  unfold attemptDownload
  split
  · split <;> intro e he <;> simp at he
    · rw [he]; rfl
    · rcases he with rfl | rfl <;> rfl
  · intro e he
    simp at he
    rw [he]; rfl

/-- The known-service attempt emits benign events only. -/
theorem knownAttempt_benign (w : World) (n url : String) :
    ∀ e ∈ (knownAttempt w n url).2, benignEv e = true := by
  unfold knownAttempt
  split
  · intro e he; simp at he
  · exact attemptDownload_benign w n _

/-- The standard-location probe emits benign events only. -/
theorem checkStd_benign (w : World) (b : GoURL) :
    ∀ e ∈ (checkStandardFaviconLocations w b).2, benignEv e = true := by
  intro e he
  obtain ⟨u, rfl⟩ := probeLoop_events w b standardPaths e he
  rfl

/-- The standard-location attempt emits benign events only. -/
theorem stdAttempt_benign (w : World) (n : String) (b : GoURL) :
    ∀ e ∈ (stdAttempt w n b).2, benignEv e = true := by
  unfold stdAttempt
  split
  · exact attemptDownload_benign w n _
  · intro e he; simp at he

/-- The whole base-domain fallback emits benign events only: no page
fetch, no HTML state, no regex state. -/
theorem tryBase_benign (w : World) (n : String) (b : GoURL) :
    ∀ e ∈ (tryFaviconFromBaseDomain w n b).2, benignEv e = true := by
  unfold tryFaviconFromBaseDomain
  split
  next v heq => exact fun e he => knownAttempt_benign w n _ e he
  next heq =>
    intro e he
    dsimp only at he
    rw [List.append_assoc, List.mem_append] at he
    rcases he with he | he
    · exact knownAttempt_benign w n _ e he
    · rw [List.mem_append] at he
      rcases he with he | he
      · exact checkStd_benign w b e he
      · exact stdAttempt_benign w n b e he

/-- C7: the known-service resolver returns the table's icon URL exactly
for hosts whose case-folded, `www.`-stripped form is a table key; when
that icon downloads, the resolution returns it without ever issuing a
page fetch; on a miss the cascade proceeds to the network page fetch. -/
theorem knownService_shortcircuit (w : World) (url : String) :
    (∀ u gu icon, goUrlParse u = some gu →
      knownServices.lookup (bareDomain gu.host) = some icon →
      getKnownServiceFavicon u = icon) ∧
    (∀ icon v, cacheHitValue w (normalizeURL url) = none →
      getKnownServiceFavicon (withScheme url) = icon → icon ≠ "" →
      w.download icon = some v → v ≠ "" →
      (FetchFaviconBase64 w url).1 = some v ∧
        (FetchFaviconBase64 w url).2.filter isFetchPageEv = []) ∧
    (cacheHitValue w (normalizeURL url) = none →
      getKnownServiceFavicon (withScheme url) = "" →
      Ev.fetchPage (withScheme url) ∈ (FetchFaviconBase64 w url).2) := by
  refine ⟨?_, ?_, ?_⟩
  · intro u gu icon hparse hlook
    unfold getKnownServiceFavicon
    rw [hparse]
    dsimp only
    rw [hlook]
  · intro icon v hmiss hk hi hd hv
    have hatt : attemptDownload w (normalizeURL url) icon =
        (some v, [Ev.download icon, Ev.store (normalizeURL url) v]) := by
      unfold attemptDownload
      rw [hd]
      dsimp only
      rw [if_neg hv]
    have hka : knownAttempt w (normalizeURL url) (withScheme url) =
        (some v, [Ev.download icon, Ev.store (normalizeURL url) v]) := by
      unfold knownAttempt
      rw [hk, if_neg hi, hatt]
    unfold FetchFaviconBase64
    rw [hmiss]
    dsimp only
    unfold fetchCore
    rw [hka]
    dsimp only
    exact ⟨rfl, rfl⟩
  · intro hmiss hk
    have hka : knownAttempt w (normalizeURL url) (withScheme url) = (none, []) := by
      unfold knownAttempt
      rw [hk]
      simp
    unfold FetchFaviconBase64
    rw [hmiss]
    dsimp only
    unfold fetchCore
    rw [hka]
    dsimp only
    cases w.fetchPage (withScheme url) with
    | none => simp
    | some resp => simp

/-- Witness for C7: resolving `github.com/x` in a world where only the
constant GitHub icon URL downloads succeeds without any page fetch. -/
theorem knownService_shortcircuit_witness :
    (cacheHitValue wGithub (normalizeURL "github.com/x") = none ∧
      getKnownServiceFavicon (withScheme "github.com/x") =
        "https://github.com/favicon.ico" ∧
      wGithub.download "https://github.com/favicon.ico" =
        some "data:image/x-icon;base64,AAAA") ∧
    (FetchFaviconBase64 wGithub "github.com/x").1 =
      some "data:image/x-icon;base64,AAAA" ∧
    (FetchFaviconBase64 wGithub "github.com/x").2.filter isFetchPageEv = [] :=
  ⟨⟨by decide, by decide, by decide⟩,
    (knownService_shortcircuit wGithub "github.com/x").2.1
      "https://github.com/favicon.ico" "data:image/x-icon;base64,AAAA"
      (by decide) (by decide) (by decide) (by decide) (by decide)⟩

/-- The standard-location probe performs no download attempt. -/
theorem checkStd_no_download (w : World) (b : GoURL) :
    (checkStandardFaviconLocations w b).2.filter isDownloadEv = [] := by
  rw [List.filter_eq_nil_iff]
  intro e he
  obtain ⟨u, rfl⟩ := probeLoop_events w b standardPaths e he
  simp [isDownloadEv]

/-- When the known-service table misses and every probe fails, the
base-domain fallback fails having only probed. -/
theorem tryBase_all_fail (w : World) (n : String) (b : GoURL)
    (hkb : getKnownServiceFavicon (urlToString b) = "")
    (hsb : (checkStandardFaviconLocations w b).1 = none) :
    tryFaviconFromBaseDomain w n b = (none, (checkStandardFaviconLocations w b).2) := by
  have hka : knownAttempt w n (urlToString b) = (none, []) := by
    unfold knownAttempt
    rw [hkb]
    simp
  have hsa : stdAttempt w n b = (none, []) := by
    unfold stdAttempt
    rw [hsb]
  unfold tryFaviconFromBaseDomain
  rw [hka, hsa]
  simp

/-- Under a non-200 final status the post-fetch dispatch emits benign
events only. -/
theorem fetchAfterAuthCheck_benign (w : World) (n r : String) (resp : PageResponse)
    (h200 : resp.status ≠ 200) :
    ∀ e ∈ (fetchAfterAuthCheck w n r resp).2, benignEv e = true := by
  unfold fetchAfterAuthCheck
  rw [if_pos h200]
  split
  · exact tryBase_benign w n _
  · intro e he
    simp at he

/-- Under a non-200 final status the response dispatch emits benign
events only: the HTML and regex states are never entered. -/
theorem fetchWithResp_benign (w : World) (n r : String) (resp : PageResponse)
    (h200 : resp.status ≠ 200) :
    ∀ e ∈ (fetchWithResp w n r resp).2, benignEv e = true := by
  unfold fetchWithResp
  split
  · split
    · exact tryBase_benign w n _
    · exact fetchAfterAuthCheck_benign w n r resp h200
  · exact fetchAfterAuthCheck_benign w n r resp h200

/-- C2 (amended): when the page fetch's final response has a non-200
status (auth-redirects included), the HTML-candidate and regex-fallback
states are never attempted; and when additionally the known-service table
misses and every standard-location probe fails, the resolution reports
not-found without attempting any download at all — in particular the
DefaultIcon state (downloading origin + `/favicon.ico`) is not reached in
this short-circuited path. -/
theorem shortCircuit_skips_html_regex (w : World) (url : String) (resp : PageResponse)
    (hresp : w.fetchPage (withScheme url) = some resp) (h200 : resp.status ≠ 200) :
    (Ev.htmlState ∉ (FetchFaviconBase64 w url).2 ∧
      Ev.regexState ∉ (FetchFaviconBase64 w url).2) ∧
    (cacheHitValue w (normalizeURL url) = none →
      getKnownServiceFavicon (withScheme url) = "" →
      (∀ b, goUrlParse (withScheme url) = some b →
        getKnownServiceFavicon (urlToString b) = "" ∧
          (checkStandardFaviconLocations w b).1 = none) →
      (FetchFaviconBase64 w url).1 = none ∧
        (FetchFaviconBase64 w url).2.filter isDownloadEv = []) := by
  constructor
  · unfold FetchFaviconBase64
    split
    next cv heq =>
      constructor <;> intro hmem <;> simp at hmem
    next heq =>
      have hcore : ∀ e ∈ (fetchCore w (normalizeURL url) (withScheme url)).2,
          benignEv e = true ∨ e = Ev.fetchPage (withScheme url) := by
        unfold fetchCore
        split
        next v heq2 => exact fun e he => Or.inl (knownAttempt_benign w _ _ e he)
        next heq2 =>
          split
          next heq3 =>
            rw [hresp] at heq3
            cases heq3
          next resp2 heq3 =>
            rw [hresp] at heq3
            obtain rfl := Option.some.inj heq3
            intro e he
            dsimp only at he
            rw [List.mem_append] at he
            rcases he with he | he
            · exact Or.inl (knownAttempt_benign w _ _ e he)
            · rw [List.mem_cons] at he
              rcases he with rfl | he
              · exact Or.inr rfl
              · exact Or.inl (fetchWithResp_benign w _ _ resp h200 e he)
      refine ⟨?_, ?_⟩ <;> intro hmem <;> dsimp only at hmem <;>
        rw [List.mem_cons] at hmem
      · rcases hmem with heq' | hmem
        · exact Ev.noConfusion heq'
        · rcases hcore _ hmem with hb | heq'
          · simp [benignEv] at hb
          · exact Ev.noConfusion heq'
      · rcases hmem with heq' | hmem
        · exact Ev.noConfusion heq'
        · rcases hcore _ hmem with hb | heq'
          · simp [benignEv] at hb
          · exact Ev.noConfusion heq'
  · intro hmiss hk hall
    have hka : knownAttempt w (normalizeURL url) (withScheme url) = (none, []) := by
      unfold knownAttempt
      rw [hk]
      simp
    have hfa : (fetchAfterAuthCheck w (normalizeURL url) (withScheme url) resp).1 = none ∧
        (fetchAfterAuthCheck w (normalizeURL url) (withScheme url) resp).2.filter
          isDownloadEv = [] := by
      unfold fetchAfterAuthCheck
      rw [if_pos h200]
      split
      next b heq =>
        rw [tryBase_all_fail w _ b (hall b heq).1 (hall b heq).2]
        exact ⟨rfl, checkStd_no_download w b⟩
      next heq => exact ⟨rfl, rfl⟩
    have hfw : (fetchWithResp w (normalizeURL url) (withScheme url) resp).1 = none ∧
        (fetchWithResp w (normalizeURL url) (withScheme url) resp).2.filter
          isDownloadEv = [] := by
      unfold fetchWithResp
      split
      · split
        next b heq =>
          rw [tryBase_all_fail w _ b (hall b heq).1 (hall b heq).2]
          exact ⟨rfl, checkStd_no_download w b⟩
        next heq => exact hfa
      · exact hfa
    unfold FetchFaviconBase64
    rw [hmiss]
    dsimp only
    unfold fetchCore
    rw [hka]
    dsimp only
    rw [hresp]
    dsimp only
    refine ⟨hfw.1, ?_⟩
    simp [isDownloadEv, hfw.2]

/-- Witness for C2 at a concrete 404 world. -/
theorem shortCircuit_skips_html_regex_witness :
    (w404.fetchPage (withScheme "example.com") = some ⟨404, "", "", ""⟩ ∧
      cacheHitValue w404 (normalizeURL "example.com") = none ∧
      getKnownServiceFavicon (withScheme "example.com") = "") ∧
    Ev.htmlState ∉ (FetchFaviconBase64 w404 "example.com").2 ∧
    (FetchFaviconBase64 w404 "example.com").1 = none ∧
    (FetchFaviconBase64 w404 "example.com").2.filter isDownloadEv = [] := by
  have h := shortCircuit_skips_html_regex w404 "example.com" ⟨404, "", "", ""⟩
    (by decide) (by decide)
  have h2 := h.2 (by decide) (by decide) (fun b hb => by
    have hc : goUrlParse (withScheme "example.com") =
        some ⟨"https", "example.com", ""⟩ := by decide
    rw [hc] at hb
    obtain rfl := Option.some.inj hb
    exact ⟨by decide, by decide⟩)
  exact ⟨⟨by decide, by decide, by decide⟩, h.1.1, h2.1, h2.2⟩

/-- Counterexample for C2 as stated: in the short-circuited path with all
probes failing, the resolution reports not-found without ever downloading
origin + `/favicon.ico` — the DefaultIcon state is not attempted. -/
theorem shortCircuit_no_defaultIcon_cx :
    (FetchFaviconBase64 w404 "example.com").1 = none ∧
    Ev.download "https://example.com/favicon.ico" ∉
      (FetchFaviconBase64 w404 "example.com").2 :=
  ⟨by decide, by decide⟩

/-- Reading at the position just set yields the new value. -/
theorem getD_set_self {α : Type _} : ∀ (l : List α) (n : Nat) (a d : α),
    n < l.length → (l.set n a).getD n d = a
  | [], n, _, _, h => absurd h (by simp)
  | x :: t, 0, a, d, _ => rfl
  | x :: t, n + 1, a, d, h => by
    simpa [List.getD_cons_succ] using getD_set_self t n a d (by simpa using h)

/-- Reading away from the position just set is unchanged. -/
theorem getD_set_other {α : Type _} : ∀ (l : List α) (n m : Nat) (a d : α),
    n ≠ m → (l.set n a).getD m d = l.getD m d
  | [], _, _, _, _, _ => by simp
  | x :: t, 0, 0, a, d, h => absurd rfl h
  | x :: t, 0, m + 1, a, d, _ => rfl
  | x :: t, n + 1, 0, a, d, _ => rfl
  | x :: t, n + 1, m + 1, a, d, h => by
    simpa [List.getD_cons_succ] using
      getD_set_other t n m a d (fun hc => h (by rw [hc]))

/-- Replacing position `k` with `a` while the old occupant moves to the
head is a permutation of pushing `a` on top. -/
theorem consSet_perm {α : Type _} : ∀ (t : List α) (k : Nat) (a d : α),
    k < t.length → List.Perm ((t.getD k d) :: t.set k a) (a :: t)
  | [], k, _, _, h => absurd h (by simp)
  | b :: t', 0, a, d, _ => List.Perm.swap a b t'
  | b :: t', k + 1, a, d, h =>
    List.Perm.trans (List.Perm.swap b ((b :: t').getD (k + 1) d) (t'.set k a))
      (List.Perm.trans
        (List.Perm.cons b (consSet_perm t' k a d (by simpa using h)))
        (List.Perm.swap a b t'))

/-- Exchanging the entries at two in-range positions is a permutation. -/
theorem listSwap_perm {α : Type _} : ∀ (l : List α) (i j : Nat) (d : α),
    i < j → j < l.length →
    List.Perm ((l.set i (l.getD j d)).set j (l.getD i d)) l
  | [], _, _, _, _, hj => absurd hj (by simp)
  | x :: t, 0, 0, _, hij, _ => absurd hij (by omega)
  | x :: t, i + 1, 0, _, hij, _ => absurd hij (by omega)
  | x :: t, 0, j + 1, d, _, hj => consSet_perm t j x d (by simpa using hj)
  | x :: t, i + 1, j + 1, d, hij, hj => by
    show List.Perm (x :: (t.set i ((x :: t).getD (j + 1) d)).set j ((x :: t).getD (i + 1) d)) (x :: t)
    rw [List.getD_cons_succ, List.getD_cons_succ]
    exact List.Perm.cons x (listSwap_perm t i j d (by omega) (by simpa using hj))

/-- One comparison step preserves length. -/
theorem passStep_length (l : List IconCandidate) (i j : Nat) :
    (passStep l i j).length = l.length := by
  unfold passStep
  split <;> simp

/-- One comparison step is a permutation. -/
theorem passStep_perm (l : List IconCandidate) (i j : Nat)
    (hij : i < j) (hj : j < l.length) : List.Perm (passStep l i j) l := by
  unfold passStep
  split
  · exact listSwap_perm l i j dcand hij hj
  · exact List.Perm.refl l

/-- One comparison step leaves positions other than `i` and `j`
untouched. -/
theorem passStep_getD_other (l : List IconCandidate) (i j m : Nat)
    (hmi : m ≠ i) (hmj : m ≠ j) :
    (passStep l i j).getD m dcand = l.getD m dcand := by
  unfold passStep
  split
  · rw [getD_set_other _ j m _ _ (Ne.symm hmj), getD_set_other _ i m _ _ (Ne.symm hmi)]
  · rfl

/-- Lists agreeing pointwise below `i` (and in length) share a prefix. -/
theorem takeEqOfGetD {α : Type _} (d : α) : ∀ (i : Nat) (l1 l2 : List α),
    l1.length = l2.length → (∀ m, m < i → l1.getD m d = l2.getD m d) →
    l1.take i = l2.take i
  | 0, _, _, _, _ => rfl
  | i + 1, [], l2, hlen, _ => by
    cases l2 with
    | nil => rfl
    | cons b t2 => simp at hlen
  | i + 1, a :: t1, l2, hlen, hm => by
    cases l2 with
    | nil => simp at hlen
    | cons b t2 =>
      have h0 : a = b := hm 0 (by omega)
      rw [List.take_succ_cons, List.take_succ_cons, h0,
        takeEqOfGetD d i t1 t2 (by simpa using hlen)
          (fun m hmi => by simpa [List.getD_cons_succ] using hm (m + 1) (by omega))]

/-- A prefix one longer appends the element at position `i`. -/
theorem takeSuccEq {α : Type _} (d : α) : ∀ (l : List α) (i : Nat),
    i < l.length → l.take (i + 1) = l.take i ++ [l.getD i d]
  | [], i, h => absurd h (by simp)
  | a :: t, 0, _ => rfl
  | a :: t, i + 1, h => by
    rw [List.take_succ_cons, List.take_succ_cons, List.getD_cons_succ,
      takeSuccEq d t i (by simpa using h)]
    rfl

/-- Dropping at an in-range position exposes the element there. -/
theorem dropEqCons {α : Type _} (d : α) : ∀ (l : List α) (i : Nat),
    i < l.length → l.drop i = l.getD i d :: l.drop (i + 1)
  | [], i, h => absurd h (by simp)
  | a :: t, 0, _ => rfl
  | a :: t, i + 1, h => by
    rw [List.getD_cons_succ]
    exact dropEqCons d t i (by simpa using h)

/-- Members of a dropped suffix are positional entries. -/
theorem memDropIdx {α : Type _} (d : α) : ∀ (l : List α) (k : Nat) (y : α),
    y ∈ l.drop k → ∃ m, k ≤ m ∧ m < l.length ∧ y = l.getD m d
  | [], k, y, h => by simp at h
  | a :: t, 0, y, h => by
    rcases List.mem_cons.mp h with rfl | h'
    · exact ⟨0, Nat.le_refl 0, by simp, rfl⟩
    · obtain ⟨m, _, hm, hy⟩ := memDropIdx d t 0 y (by simpa using h')
      exact ⟨m + 1, by omega, by simpa using hm,
        by simpa [List.getD_cons_succ] using hy⟩
  | a :: t, k + 1, y, h => by
    obtain ⟨m, hkm, hm, hy⟩ := memDropIdx d t k y h
    exact ⟨m + 1, by omega, by simpa using hm,
      by simpa [List.getD_cons_succ] using hy⟩

/-- Lists of at most one element are sorted. -/
theorem pairwise_of_len_le_one (l : List IconCandidate) (h : l.length ≤ 1) :
    List.Pairwise (fun a b : IconCandidate => a.priority ≤ b.priority) l := by
  match l with
  | [] => exact List.Pairwise.nil
  | [x] => exact List.pairwise_singleton _ _
  | x :: y :: t => simp at h

/-- The inner loop preserves length. -/
theorem innerGo_length (i : Nat) : ∀ (f j : Nat) (l : List IconCandidate),
    (innerGo i f j l).length = l.length
  | 0, _, _ => rfl
  | f + 1, j, l => by
    rw [innerGo, innerGo_length i f (j + 1) (passStep l i j), passStep_length]

/-- The inner loop permutes its input (all compared positions in
range). -/
theorem innerGo_perm (i : Nat) : ∀ (f j : Nat) (l : List IconCandidate),
    i < j → f ≤ l.length - j → List.Perm (innerGo i f j l) l
  | 0, _, l, _, _ => List.Perm.refl l
  | f + 1, j, l, hij, hf => by
    rw [innerGo]
    exact List.Perm.trans
      (innerGo_perm i f (j + 1) (passStep l i j) (by omega)
        (by rw [passStep_length]; omega))
      (passStep_perm l i j hij (by omega))

/-- The inner loop leaves positions below `i` untouched. -/
theorem innerGo_getD_lt (i : Nat) : ∀ (f j : Nat) (l : List IconCandidate) (m : Nat),
    m < i → i < j → (innerGo i f j l).getD m dcand = l.getD m dcand
  | 0, _, _, _, _, _ => rfl
  | f + 1, j, l, m, hmi, hij => by
    rw [innerGo, innerGo_getD_lt i f (j + 1) (passStep l i j) m hmi (by omega),
      passStep_getD_other l i j m (by omega) (by omega)]

/-- After the inner loop starting at `j`, the entry at `i` is a minimum of
all entries above `i` — provided it already was one over `(i, j)`. -/
theorem innerGo_min (i : Nat) : ∀ (f j : Nat) (l : List IconCandidate),
    i < j → j + f = l.length →
    (∀ m, i < m → m < j →
      (l.getD i dcand).priority ≤ (l.getD m dcand).priority) →
    ∀ m, i < m → m < l.length →
      ((innerGo i f j l).getD i dcand).priority ≤
        ((innerGo i f j l).getD m dcand).priority
  | 0, j, l, _, hjf, hinv, m, him, hml => hinv m him (by omega)
  | f + 1, j, l, hij, hjf, hinv, m, him, hml => by
    rw [innerGo]
    have hilen : i < l.length := by omega
    have hjlen : j < l.length := by omega
    refine innerGo_min i f (j + 1) (passStep l i j) (by omega)
      (by rw [passStep_length]; omega) ?_ m him
      (by rw [passStep_length]; exact hml)
    intro m' him' hm'j
    unfold passStep
    split
    next hgt =>
      have hgi : ((l.set i (l.getD j dcand)).set j (l.getD i dcand)).getD i dcand =
          l.getD j dcand := by
        rw [getD_set_other _ j i _ _ (by omega), getD_set_self _ i _ _ hilen]
      by_cases hmj : m' = j
      · rw [hmj]
        have hgj : ((l.set i (l.getD j dcand)).set j (l.getD i dcand)).getD j dcand =
            l.getD i dcand :=
          getD_set_self _ j _ _ (by rw [List.length_set]; exact hjlen)
        rw [hgi, hgj]
        exact le_of_lt hgt
      · have hne : ((l.set i (l.getD j dcand)).set j (l.getD i dcand)).getD m' dcand =
            l.getD m' dcand := by
          rw [getD_set_other _ j m' _ _ (Ne.symm hmj),
            getD_set_other _ i m' _ _ (by omega)]
        rw [hgi, hne]
        exact le_trans (le_of_lt hgt) (hinv m' him' (by omega))
    next hng =>
      by_cases hmj : m' = j
      · rw [hmj]
        exact not_lt.mp hng
      · exact hinv m' him' (by omega)

/-- The outer loop permutes its input. -/
theorem outerGo_perm (n : Nat) : ∀ (f i : Nat) (l : List IconCandidate),
    n = l.length → List.Perm (outerGo n f i l) l
  | 0, _, l, _ => List.Perm.refl l
  | f + 1, i, l, hlen => by
    rw [outerGo]
    refine List.Perm.trans
      (outerGo_perm n f (i + 1) (innerPass n i (i + 1) l) ?_) ?_
    · unfold innerPass
      rw [innerGo_length, ← hlen]
    · unfold innerPass
      exact innerGo_perm i (n - (i + 1)) (i + 1) l (by omega) (by omega)

/-- Main invariant of the exchange sort: once the prefix before `i` is
sorted and dominates the suffix, running the remaining outer iterations
sorts the whole list. -/
theorem outerGo_sorted (n : Nat) : ∀ (f i : Nat) (l : List IconCandidate),
    f = (n - 1) - i → n = l.length →
    List.Pairwise (fun a b : IconCandidate => a.priority ≤ b.priority) (l.take i) →
    (∀ x ∈ l.take i, ∀ y ∈ l.drop i, x.priority ≤ y.priority) →
    List.Pairwise (fun a b : IconCandidate => a.priority ≤ b.priority) (outerGo n f i l)
  | 0, i, l, hf, hlen, hs, hcross => by
    have hres := List.pairwise_append.mpr
      ⟨hs, pairwise_of_len_le_one _ (by rw [List.length_drop]; omega), hcross⟩
    rw [outerGo]
    rwa [List.take_append_drop] at hres
  | f + 1, i, l, hf, hlen, hs, hcross => by
    rw [outerGo]
    have hi : i < n - 1 := by omega
    have hlen' : (innerPass n i (i + 1) l).length = l.length := by
      unfold innerPass
      rw [innerGo_length]
    have hperm : List.Perm (innerPass n i (i + 1) l) l := by
      unfold innerPass
      exact innerGo_perm i (n - (i + 1)) (i + 1) l (by omega) (by omega)
    have htake : (innerPass n i (i + 1) l).take i = l.take i :=
      takeEqOfGetD dcand i _ l (by rw [hlen'])
        (fun m hm => by
          unfold innerPass
          exact innerGo_getD_lt i (n - (i + 1)) (i + 1) l m hm (by omega))
    have hil' : i < (innerPass n i (i + 1) l).length := by
      rw [hlen']; omega
    have hmin : ∀ m, i < m → m < (innerPass n i (i + 1) l).length →
        ((innerPass n i (i + 1) l).getD i dcand).priority ≤
          ((innerPass n i (i + 1) l).getD m dcand).priority := by
      intro m him hml
      rw [hlen'] at hml
      unfold innerPass
      exact innerGo_min i (n - (i + 1)) (i + 1) l (by omega) (by omega)
        (fun m' h1 h2 => absurd h2 (by omega)) m him hml
    have hdropperm : List.Perm ((innerPass n i (i + 1) l).drop i) (l.drop i) := by
      have h1 := List.take_append_drop i (innerPass n i (i + 1) l)
      have h2 := List.take_append_drop i l
      rw [htake] at h1
      have hmid : List.Perm (l.take i ++ (innerPass n i (i + 1) l).drop i)
          (l.take i ++ l.drop i) := by
        rw [h1, h2]
        exact hperm
      exact (List.perm_append_left_iff _).mp hmid
    apply outerGo_sorted n f (i + 1) (innerPass n i (i + 1) l) (by omega)
      (by rw [hlen']; exact hlen) ?_ ?_
    · rw [takeSuccEq dcand _ i hil']
      apply List.pairwise_append.mpr
      refine ⟨by rw [htake]; exact hs, List.pairwise_singleton _ _, ?_⟩
      intro x hx y hy
      rw [List.mem_singleton] at hy
      subst hy
      rw [htake] at hx
      have hyd : (innerPass n i (i + 1) l).getD i dcand ∈ l.drop i :=
        hdropperm.subset
          (by rw [dropEqCons dcand _ i hil']; exact List.mem_cons_self _ _)
      exact hcross x hx _ hyd
    · intro x hx y hy
      obtain ⟨m, hm1, hm2, rfl⟩ := memDropIdx dcand _ (i + 1) y hy
      rw [takeSuccEq dcand _ i hil', List.mem_append] at hx
      rcases hx with hx | hx
      · rw [htake] at hx
        have hyd : (innerPass n i (i + 1) l).getD m dcand ∈ l.drop i :=
          hdropperm.subset
            (by rw [dropEqCons dcand _ i hil']; exact List.mem_cons_of_mem _ hy)
        exact hcross x hx _ hyd
      · rw [List.mem_singleton] at hx
        subst hx
        exact hmin m (by omega) hm2

/-- The exchange sort returns a permutation of its input. -/
theorem sortCandidates_perm (l : List IconCandidate) :
    List.Perm (sortCandidates l) l := by
  unfold sortCandidates outerLoop
  exact outerGo_perm l.length (l.length - 1 - 0) 0 l rfl

/-- The exchange sort returns an ascending-priority list. -/
theorem sortCandidates_sorted (l : List IconCandidate) :
    List.Pairwise (fun a b : IconCandidate => a.priority ≤ b.priority)
      (sortCandidates l) := by
  unfold sortCandidates outerLoop
  refine outerGo_sorted l.length (l.length - 1 - 0) 0 l rfl rfl List.Pairwise.nil ?_
  intro x hx
  simp at hx

/-- C1 (amended): for every HTML document (and href-resolution oracle)
the candidate list produced by the HTML Candidate Extractor is a
permutation of the extracted candidates, sorted ascending by priority;
the exchange sort used is however not stable, so equal-priority
candidates need not retain document order (see the counterexample). -/
theorem findIconCandidates_sorted_perm (resolve : String → Option String)
    (doc : HtmlNode) :
    List.Perm (findIconCandidates resolve doc) (extractFromNode resolve doc) ∧
    SortedLE (findIconCandidates resolve doc) :=
  ⟨sortCandidates_perm _, sortCandidates_sorted _⟩

/-- Counterexample for C1 as stated: two equal-priority `shortcut icon`
candidates appearing before an `icon` candidate come out in reversed
relative order — the sort is not stable. -/
theorem findIconCandidates_not_stable_cx :
    extractFromNode resolveId docStable =
      [⟨"a", 2⟩, ⟨"b", 2⟩, ⟨"c", 1⟩] ∧
    findIconCandidates resolveId docStable =
      [⟨"c", 1⟩, ⟨"b", 2⟩, ⟨"a", 2⟩] ∧
    ¬ StableOrder (extractFromNode resolveId docStable)
        (findIconCandidates resolveId docStable) := by
  have e1 : extractFromNode resolveId docStable =
      [⟨"a", 2⟩, ⟨"b", 2⟩, ⟨"c", 1⟩] := by decide
  have e2 : findIconCandidates resolveId docStable =
      [⟨"c", 1⟩, ⟨"b", 2⟩, ⟨"a", 2⟩] := by decide
  refine ⟨e1, e2, ?_⟩
  rw [e1, e2]
  intro h
  obtain ⟨i2, hi2, j2, hj2, hlt, hea, heb⟩ :=
    h 0 (by decide) 1 (by decide) (by decide) (by decide)
  simp only [List.length_cons, List.length_nil] at hi2 hj2
  interval_cases i2 <;> interval_cases j2 <;> revert hlt <;> revert hea <;>
    revert heb <;> decide

/-- C4: the extractor assigns priorities by the fixed rel table (and only
to its keys), boosts by one when `sizes` advertises 32x32, 64x64 or
128x128, ignores unrecognized rel values; consequently rels
`[alternate icon, icon, apple-touch-icon]` come out ordered
`icon, apple-touch-icon, alternate icon`. -/
theorem relPriority_table_and_order :
    (∀ rel p, relPriorities rel = some p ↔
      (rel, p) ∈ [("icon", (1 : Int)), ("shortcut icon", 2),
        ("apple-touch-icon", 3), ("apple-touch-icon-precomposed", 4),
        ("fluid-icon", 5), ("mask-icon", 6), ("alternate icon", 7)]) ∧
    (∀ resolve rel href sizes,
      relPriorities (strToLower (strTrim rel)) = none →
      extractFromNode resolve (mkLinkS rel href sizes) = []) ∧
    (∀ resolve rel href sizes p a,
      relPriorities (strToLower (strTrim rel)) = some p →
      strTrim href ≠ "" → resolve (strTrim href) = some a →
      sizesBoost (strTrim sizes) = true →
      extractFromNode resolve (mkLinkS rel href sizes) = [⟨a, p - 1⟩]) ∧
    (∀ resolve rel href sizes p a,
      relPriorities (strToLower (strTrim rel)) = some p →
      strTrim href ≠ "" → resolve (strTrim href) = some a →
      sizesBoost (strTrim sizes) = false →
      extractFromNode resolve (mkLinkS rel href sizes) = [⟨a, p⟩]) ∧
    findIconCandidates resolveId docOrder =
      [⟨"u2", 1⟩, ⟨"u3", 3⟩, ⟨"u1", 7⟩] := by
  have hattrs : ∀ rel href sizes,
      linkAttrs [("rel", rel), ("href", href), ("sizes", sizes)] =
        (strToLower (strTrim rel), strTrim href, strTrim sizes) :=
    fun _ _ _ => rfl
  refine ⟨?_, ?_, ?_, ?_, by decide⟩
  · intro rel p
    constructor
    · intro h
      unfold relPriorities at h
      split_ifs at h <;> simp_all
    · intro h
      simp only [List.mem_cons, List.not_mem_nil, or_false] at h
      rcases h with h | h | h | h | h | h | h <;>
        (obtain ⟨rfl, rfl⟩ := Prod.mk.injEq .. ▸ h) <;> rfl
  · intro resolve rel href sizes h
    show linkCandidates resolve [("rel", rel), ("href", href), ("sizes", sizes)] ++
        extractFromNodes resolve [] = []
    unfold linkCandidates
    rw [hattrs]
    dsimp only
    rw [h]
    rfl
  · intro resolve rel href sizes p a hp hh ha hs
    show linkCandidates resolve [("rel", rel), ("href", href), ("sizes", sizes)] ++
        extractFromNodes resolve [] = [⟨a, p - 1⟩]
    unfold linkCandidates
    rw [hattrs]
    dsimp only
    rw [hp]
    dsimp only
    rw [if_neg hh, ha]
    dsimp only
    rw [if_pos hs]
    rfl
  · intro resolve rel href sizes p a hp hh ha hs
    show linkCandidates resolve [("rel", rel), ("href", href), ("sizes", sizes)] ++
        extractFromNodes resolve [] = [⟨a, p⟩]
    unfold linkCandidates
    rw [hattrs]
    dsimp only
    rw [hp]
    dsimp only
    rw [if_neg hh, ha]
    dsimp only
    rw [if_neg (by rw [hs]; exact Bool.false_ne_true)]
    rfl

/-- Witness for C4: a boosted `icon` link with `sizes="32x32"` yields the
single candidate at priority 0. -/
theorem relPriority_table_and_order_witness :
    (relPriorities (strToLower (strTrim "icon")) = some 1 ∧
      strTrim "x" ≠ "" ∧ resolveId (strTrim "x") = some "x" ∧
      sizesBoost (strTrim "32x32") = true) ∧
    extractFromNode resolveId (mkLinkS "icon" "x" "32x32") = [⟨"x", 0⟩] := by
  refine ⟨⟨by decide, by decide, by decide, by decide⟩, ?_⟩
  have h := relPriority_table_and_order.2.2.1 resolveId "icon" "x" "32x32" 1 "x"
    (by decide) (by decide) (by decide) (by decide)
  simpa using h
